import Mathlib

/-!
# RealTimeFaceRecognition: a verification development of `src/Main.cpp`

The program is embedded shallowly.  `std::string` is a list of characters,
`size_t` is a natural number below `2^64` with wrap-around arithmetic, the
OpenCV primitives the program calls are fields of a record `OpenCV`, and every
side effect (drawing on the frame, writing to `std::cout`) is an entry of an
event trace.
-/

set_option autoImplicit false

namespace FaceRecognition

/-! ## Strings and `size_t` -/

/-- A `std::string`: its characters in order. -/
abbrev Str := List Char

/-- The number of values of `size_t` on the 64-bit target. -/
def SIZE : Nat := 2 ^ 64

/-- The constant `std::string::npos`, which is `size_t(-1)`. -/
def npos : Nat := SIZE - 1

/-- Addition of two `size_t` values. -/
def sizeAdd (a b : Nat) : Nat := (a + b) % SIZE

/-- Subtraction of two `size_t` values (both below `SIZE`), wrapping around. -/
def sizeSub (a b : Nat) : Nat := (a + SIZE - b) % SIZE

/-- The double-quote character. -/
def dquote : Char := Char.ofNat 34

/-- The newline character, the delimiter of `std::getline`. -/
def newline : Char := Char.ofNat 10

/-- Position of the first occurrence of `pat` in `s` at or after offset `i`
(counted from the start of the original string), or `npos`. -/
def findFrom (pat : Str) : Str → Nat → Nat
  | [], i => if pat = [] then i else npos
  | c :: cs, i => if pat.isPrefixOf (c :: cs) then i else findFrom pat cs (i + 1)

/-- The call `s.find(pat)`. -/
def find (s pat : Str) : Nat := findFrom pat s 0

/-- The call `s.find_first_of(c)` for one character: index of the first `c`, or `npos`. -/
def find_first_of (s : Str) (c : Char) : Nat :=
  if c ∈ s then s.indexOf c else npos

/-- The call `s.find_last_of(c)` for one character: index of the last `c`, or `npos`. -/
def find_last_of (s : Str) (c : Char) : Nat :=
  if c ∈ s then s.length - 1 - s.reverse.indexOf c else npos

/-- The call `s.substr(pos, count)`: `none` stands for `std::out_of_range`
(thrown when `pos > s.size()`); otherwise the characters from `pos`, at most
`count` of them. -/
def substr (s : Str) (pos count : Nat) : Option Str :=
  if pos > s.length then none else some ((s.drop pos).take count)

/-! ## Paths and `hasValidImageExtension` -/

/-- A `std::filesystem::path` of a directory entry: the directory it lies in
and its last component. -/
structure Path where
  parent : Str
  filename : Str
  deriving DecidableEq

/-- Index of the last period of a file name, if it has one. -/
def lastPeriod (name : Str) : Option Nat :=
  if Char.ofNat 46 ∈ name then some (name.length - 1 - name.reverse.indexOf (Char.ofNat 46)) else none

/-- The call `path.extension().string()` as the C++ standard defines it: empty for
the special names dot and dot-dot, empty when the file name has no period or
its only period is its first character, otherwise the file name from its
rightmost period on. -/
def Path.extension (p : Path) : Str :=
  if p.filename = ".".toList ∨ p.filename = "..".toList then []
  else
    match lastPeriod p.filename with
    | none => []
    | some 0 => []
    | some (i + 1) => p.filename.drop (i + 1)

/-- The vector `validExtensions` of line 18. -/
def validExtensions : List Str :=
  [".jpg".toList, ".jpeg".toList, ".png".toList, ".bmp".toList]

/-- The `for` loop of lines 19 to 24: `true` at the first equal element,
`false` when the vector is exhausted. -/
def extensionLoop (extension : Str) : List Str → Bool
  | [] => false
  | validExtension :: rest =>
    if extension = validExtension then true else extensionLoop extension rest

/-- The function `hasValidImageExtension` (lines 15 to 25). -/
def hasValidImageExtension (path : Path) : Bool :=
  extensionLoop path.extension validExtensions

/-! ## OpenCV values and primitives -/

/-- A `cv::Mat`, as far as the program looks at it: its dimensions and its
samples in row-major order. -/
structure Mat where
  rows : Nat
  cols : Nat
  data : List Int
  deriving DecidableEq

/-- The call `m.empty()`. -/
def Mat.empty (m : Mat) : Bool := m.rows = 0 || m.cols = 0 || m.data = []

/-- A `cv::Rect`. -/
structure Rect where
  x : Int
  y : Int
  width : Int
  height : Int
  deriving DecidableEq

/-- The test `faceROI.size().empty()`, which `cv::resize` applies to its
target size: `width <= 0 || height <= 0`. -/
def Rect.sizeEmpty (r : Rect) : Bool := r.width ≤ 0 || r.height ≤ 0

/-- A `cv::Scalar` colour (blue, green, red). -/
structure Scalar where
  b : Nat
  g : Nat
  r : Nat
  deriving DecidableEq

/-- The colour `cv::Scalar(255, 0, 0)` of line 84, blue. -/
def blue : Scalar := ⟨255, 0, 0⟩

/-- The colour `cv::Scalar(0, 165, 255)` of lines 130 and 131, orange. -/
def orange : Scalar := ⟨0, 165, 255⟩

/-- The local `threshold` of line 122.  Scores are exact rationals (every finite
`double` is one) and the literal 0.1 is read as one tenth. -/
def threshold : ℚ := 1 / 10

/-- The OpenCV functions `detectAndDraw` calls.  They are parameters of the
model.  A value of type `Except String _` is either a result or the message
of a thrown `cv::Exception`. -/
structure OpenCV where
  /-- The call `cv::cvtColor(_, _, cv::COLOR_BGR2GRAY)`. -/
  cvtColor : Mat → Mat
  /-- The call `cascade.detectMultiScale(gray, faces, 1.1, 2, CASCADE_SCALE_IMAGE, Size(30, 30))`
  for the cascade loaded from a given file. -/
  detectMultiScale : Str → Mat → List Rect
  /-- The call `cv::imread(path)`; an empty `Mat` when the file does not decode. -/
  imread : Path → Mat
  /-- The call `cv::resize(src, dst, Size(width, height))` for a non-empty target size. -/
  resize : Mat → Int → Int → Mat
  /-- The sub-matrix `gray(faceROI)`. -/
  roi : Mat → Rect → Except String Mat
  /-- The call `cv::matchTemplate(image, templ, result, cv::TM_CCOEFF_NORMED)`
  followed by `cv::minMaxLoc`: the `maxVal` found. -/
  matchTemplate : Mat → Mat → Except String ℚ

/-! ## Effects -/

/-- What `detectAndDraw` does to the outside: drawing on `img`, writing a
line to `std::cout`, and (as a marker) entering the template comparison of
a gallery file with a region. -/
inductive Event
  | rectangle (rec : Rect) (color : Scalar) (thickness : Nat)
  | putText (text : Str) (x y : Int) (color : Scalar) (thickness : Nat)
  | cout (line : String)
  | compare (file : Path) (faceROI : Rect)
  deriving DecidableEq

/-- An exception that leaves `detectAndDraw`. -/
inductive Thrown
  | cvException
  | filesystemError
  deriving DecidableEq

/-- Is the event a drawing command? -/
def Event.isDrawing : Event → Bool
  | .rectangle _ _ _ => true
  | .putText _ _ _ _ _ => true
  | _ => false

/-- The drawing commands of a trace. -/
def drawings (t : List Event) : List Event := t.filter Event.isDrawing

/-- The texts `cv::putText` rendered, in order. -/
def labels : List Event → List Str
  | [] => []
  | .putText text _ _ _ _ :: rest => text :: labels rest
  | _ :: rest => labels rest

/-- The colour of the last rectangle of a trace. -/
def lastRectangle : List Event → Option Scalar
  | [] => none
  | .rectangle _ color _ :: rest =>
    match lastRectangle rest with
    | some c => some c
    | none => some color
  | _ :: rest => lastRectangle rest

/-- Does the trace enter a template comparison? -/
def Event.isCompare : Event → Bool
  | .compare _ _ => true
  | _ => false

/-! ## Settings (`readSettings`) -/

/-- The three global strings the settings file fills in. -/
structure Settings where
  CASCADE_FILE_MAIN : Str
  CASCADE_FILE_EYES : Str
  IMAGE_DIR : Str
  deriving DecidableEq

/-- The globals before `readSettings` runs: three empty strings. -/
def Settings.unset : Settings := ⟨[], [], []⟩

/-- The keys of the settings file. -/
inductive Key
  | cascadeFileMain
  | cascadeFileEyes
  | imageDir
  deriving DecidableEq

/-- The text a key is searched by. -/
def Key.text : Key → Str
  | .cascadeFileMain => "CASCADE_FILE_MAIN".toList
  | .cascadeFileEyes => "CASCADE_FILE_EYES".toList
  | .imageDir => "IMAGE_DIR".toList

/-- The global a key names. -/
def Settings.get (s : Settings) : Key → Str
  | .cascadeFileMain => s.CASCADE_FILE_MAIN
  | .cascadeFileEyes => s.CASCADE_FILE_EYES
  | .imageDir => s.IMAGE_DIR

/-- Assignment to the global a key names. -/
def Settings.set (s : Settings) : Key → Str → Settings
  | .cascadeFileMain, v => { s with CASCADE_FILE_MAIN := v }
  | .cascadeFileEyes, v => { s with CASCADE_FILE_EYES := v }
  | .imageDir, v => { s with IMAGE_DIR := v }

/-- The expression of lines 47, 51 and 55, with `q` the double-quote:
`line.substr(line.find_first_of(q) + 1, line.find_last_of(q) - line.find_first_of(q) - 1)`. -/
def quotedValue (line : Str) : Option Str :=
  substr line (sizeAdd (find_first_of line dquote) 1)
    (sizeSub (sizeSub (find_last_of line dquote) (find_first_of line dquote)) 1)

/-- The key the `if / else if / else if` chain of lines 45 to 56 selects for a line. -/
def lineKey (line : Str) : Option Key :=
  if find line Key.cascadeFileMain.text ≠ npos then some .cascadeFileMain
  else if find line Key.cascadeFileEyes.text ≠ npos then some .cascadeFileEyes
  else if find line Key.imageDir.text ≠ npos then some .imageDir
  else none

/-- The body of the `while (std::getline(...))` loop on one line; `none` is an
uncaught `std::out_of_range` from `substr`. -/
def processLine (s : Settings) (line : Str) : Option Settings :=
  match lineKey line with
  | none => some s
  | some k => (quotedValue line).map (s.set k)

/-- The whole `while` loop over the lines `std::getline` delivers. -/
def processLines : Settings → List Str → Option Settings
  | s, [] => some s
  | s, line :: rest =>
    match processLine s line with
    | none => none
    | some s1 => processLines s1 rest

/-- The lines successive `std::getline` calls extract from the rest of a file:
`acc` holds the current line reversed, `started` tells whether the current
line has begun (so that an input ending in a newline yields no extra line). -/
def getlinesAux : List Char → List Char → Bool → List Str
  | [], acc, started => if started then [acc.reverse] else []
  | c :: cs, acc, _ =>
    if c = newline then acc.reverse :: getlinesAux cs [] false
    else getlinesAux cs (c :: acc) true

/-- The lines of a file as `std::getline` reads them. -/
def getlines (content : List Char) : List Str := getlinesAux content [] false

/-- How a run of the process (or of a function that may end it) finishes. -/
inductive Exit
  | returned (code : Int)
  | exited (code : Int)
  | terminated
  deriving DecidableEq

/-- What `main` and `readSettings` do to the outside. -/
inductive MainEvent
  | cout (line : String)
  | system (command : String)
  | detectAndDraw (events : List Event)
  | imshow
  | release
  | destroyAllWindows
  deriving DecidableEq

/-- What `readSettings` does: it returns to `main` with the globals set, or
ends the process through `exit`, or lets `std::out_of_range` escape. -/
inductive SettingsResult
  | returned (s : Settings) (trace : List MainEvent)
  | exited (code : Int) (trace : List MainEvent)
  | terminated (trace : List MainEvent)
  deriving DecidableEq

/-- The function `readSettings` (lines 27 to 66).  `file` is the content of
the settings file, `none` when it cannot be opened.  For an empty file the
message is printed and the stream closed; the `getline` loop then reads
nothing and the function returns. -/
def readSettings (file : Option (List Char)) : SettingsResult :=
  match file with
  | some content =>
    if content = [] then
      .returned Settings.unset [.cout "settings.conf is empty or corrupt."]
    else
      match processLines Settings.unset (getlines content) with
      | some s => .returned s []
      | none => .terminated []
  | none => .exited 1 [.cout "Failed to open settings.conf file.", .system "pause"]

/-! ## `detectAndDraw` -/

/-- What happens to one directory entry for one region (lines 91 to 125). -/
inductive Outcome
  | badExtension
  | decodeFailure
  | resizeFailure
  | correlationFailure (what : String)
  | score (maxVal : ℚ)
  deriving DecidableEq

/-- Lines 91 to 125 for one directory entry and one region: the extension
test, `imread`, `cvtColor`, `resize` (which throws on an empty target size,
outside the `try`), and `matchTemplate` on `gray(faceROI)` inside the `try`. -/
def entryOutcome (cv : OpenCV) (gray : Mat) (faceROI : Rect) (entry : Path) : Outcome :=
  if !hasValidImageExtension entry then .badExtension
  else
    let compareImg := cv.imread entry
    if compareImg.empty then .decodeFailure
    else
      let compareImg := cv.cvtColor compareImg
      if faceROI.sizeEmpty then .resizeFailure
      else
        let compareImg := cv.resize compareImg faceROI.width faceROI.height
        match (cv.roi gray faceROI).bind (fun templ => cv.matchTemplate compareImg templ) with
        | .error what => .correlationFailure what
        | .ok maxVal => .score maxVal

/-- The body of the loop over the directory (lines 89 to 133) for one entry:
the events it produces and the exception it lets escape, if any. -/
def compareEntry (cv : OpenCV) (gray : Mat) (faceROI : Rect) (entry : Path) :
    List Event × Option Thrown :=
  match entryOutcome cv gray faceROI entry with
  | .badExtension => ([], none)
  | .decodeFailure => ([.cout ("Failed to read image: " ++ String.mk entry.filename)], none)
  | .resizeFailure => ([], some .cvException)
  | .correlationFailure what =>
    ([.compare entry faceROI, .cout ("Error occurred during template matching: " ++ what)], none)
  | .score maxVal =>
    if maxVal > threshold then
      ([.compare entry faceROI, .rectangle faceROI orange 2,
        .putText entry.filename faceROI.x (faceROI.y - 10) orange 2], none)
    else ([.compare entry faceROI], none)

/-- The loop over the directory entries (lines 88 to 133), stopped by an
escaping exception. -/
def compareGallery (cv : OpenCV) (gray : Mat) (faceROI : Rect) :
    List Path → List Event × Option Thrown
  | [] => ([], none)
  | entry :: rest =>
    match compareEntry cv gray faceROI entry with
    | (events, some thrown) => (events, some thrown)
    | (events, none) =>
      ((events ++ (compareGallery cv gray faceROI rest).1), (compareGallery cv gray faceROI rest).2)

/-- The body of the loop over the faces (lines 81 to 134) for one region.
`directory` lists `IMAGE_DIR`; `none` when `directory_iterator` throws. -/
def processFace (cv : OpenCV) (gray : Mat) (directory : Option (List Path)) (faceROI : Rect) :
    List Event × Option Thrown :=
  match directory with
  | none => ([.rectangle faceROI blue 2], some .filesystemError)
  | some gallery =>
    (.rectangle faceROI blue 2 :: (compareGallery cv gray faceROI gallery).1,
      (compareGallery cv gray faceROI gallery).2)

/-- The loop over the detected faces (lines 80 to 134). -/
def processFaces (cv : OpenCV) (gray : Mat) (directory : Option (List Path)) :
    List Rect → List Event × Option Thrown
  | [] => ([], none)
  | faceROI :: rest =>
    match processFace cv gray directory faceROI with
    | (events, some thrown) => (events, some thrown)
    | (events, none) =>
      ((events ++ (processFaces cv gray directory rest).1), (processFaces cv gray directory rest).2)

/-- The function `detectAndDraw` (lines 69 to 135) for the cascade loaded
from `cascade` and the listing `directory` of `IMAGE_DIR`. -/
def detectAndDraw (cv : OpenCV) (directory : Option (List Path)) (cascade : Str) (img : Mat) :
    List Event × Option Thrown :=
  let gray := cv.cvtColor img
  let faces := cv.detectMultiScale cascade gray
  processFaces cv gray directory faces

/-- The scores of a gallery against a region, in directory order. -/
def scores (cv : OpenCV) (gray : Mat) (faceROI : Rect) : List Path → List ℚ
  | [] => []
  | entry :: rest =>
    match entryOutcome cv gray faceROI entry with
    | .score maxVal => maxVal :: scores cv gray faceROI rest
    | _ => scores cv gray faceROI rest

/-- The maximum of a list of scores, `none` for the empty list. -/
def bestScore : List ℚ → Option ℚ
  | [] => none
  | s :: rest =>
    match bestScore rest with
    | none => some s
    | some m => some (max s m)

/-- A region is matched when its best score exists and is above the threshold. -/
def isMatch : Option ℚ → Bool
  | none => false
  | some m => decide (threshold < m)

/-- Does the entry get through to a score above the threshold for this region? -/
def aboveThreshold (cv : OpenCV) (gray : Mat) (faceROI : Rect) (entry : Path) : Bool :=
  match entryOutcome cv gray faceROI entry with
  | .score maxVal => decide (threshold < maxVal)
  | _ => false

/-- Is the outcome one of the two recoverable failures, a file that does not
decode or a correlation that throws? -/
def Outcome.isSkipped : Outcome → Bool
  | .decodeFailure => true
  | .correlationFailure _ => true
  | _ => false

/-- Does the entry reach `cv::resize`, that is, has it a valid extension and
does it decode? -/
def reachesResize (cv : OpenCV) (entry : Path) : Bool :=
  hasValidImageExtension entry && !(cv.imread entry).empty

/-- OpenCV primitives for worked examples: the detector reports `faces` on
every frame; a file decodes, to a one-sample image holding its position in
`table`, when `table` lists its name; comparing it with any region gives the
score `table` lists for it. -/
def exampleCv (faces : List Rect) (table : List (Str × ℚ)) : OpenCV where
  cvtColor := fun m => m
  detectMultiScale := fun _ _ => faces
  imread := fun p =>
    match table.findIdx? (fun row => row.1 = p.filename) with
    | some i => ⟨1, 1, [(i : Int)]⟩
    | none => ⟨0, 0, []⟩
  resize := fun m _ _ => m
  roi := fun gray _ => .ok gray
  matchTemplate := fun image _ =>
    match table.get? (image.data.headD 0).toNat with
    | some row => .ok row.2
    | none => .error "no score"

/-- OpenCV primitives for worked examples with one image: every file decodes
to `content`, resizing leaves it as it is, every region of the frame holds
`content` too, and the correlation of the two is `s`. -/
def uniformCv (content : Mat) (s : ℚ) : OpenCV where
  cvtColor := fun m => m
  detectMultiScale := fun _ _ => []
  imread := fun _ => content
  resize := fun m _ _ => m
  roi := fun _ _ => .ok content
  matchTemplate := fun _ _ => .ok s

/-- A directory entry of the example gallery. -/
def file (name : String) : Path := ⟨"faces".toList, name.toList⟩

/-! ## `main` -/

/-- Everything outside the program that `main` depends on. -/
structure World where
  /-- Content of the settings file; `none` when it cannot be opened. -/
  settingsFile : Option (List Char)
  /-- Does `CascadeClassifier::load` succeed on this file name? -/
  cascadeLoad : Str → Bool
  /-- Does `capture.isOpened()` hold for camera 0? -/
  cameraOpens : Bool
  /-- The frame `capture >> frame` delivers in the i-th pass of the loop. -/
  frames : Nat → Mat
  /-- The key `cv::waitKey(1)` reports in the i-th pass of the loop. -/
  keys : Nat → Int
  /-- The listing of a directory; `none` when `directory_iterator` throws. -/
  directory : Str → Option (List Path)
  /-- The OpenCV primitives. -/
  cv : OpenCV

/-- The capture loop of lines 179 to 209, from pass `i` on, for at most `fuel`
passes; `none` when the loop is still running after `fuel` passes.  An
exception leaving `detectAndDraw` is not caught and ends the process. -/
def mainLoop (w : World) (s : Settings) : Nat → Nat → Option (List MainEvent × Exit)
  | 0, _ => none
  | fuel + 1, i =>
    if (w.frames i).empty then some ([.release, .destroyAllWindows], .returned 0)
    else
      match detectAndDraw w.cv (w.directory s.IMAGE_DIR) s.CASCADE_FILE_MAIN (w.frames i) with
      | (events, some _) => some ([.detectAndDraw events], .terminated)
      | (events, none) =>
        if w.keys i = 27 then
          some ([.detectAndDraw events, .imshow, .release, .destroyAllWindows], .returned 0)
        else if w.keys i = 113 then
          some ([.detectAndDraw events, .imshow, .release, .destroyAllWindows], .returned 0)
        else
          (mainLoop w s fuel (i + 1)).map
            (fun r => (.detectAndDraw events :: .imshow :: r.1, r.2))

/-- The function `main` (lines 137 to 218) run for at most `fuel` passes of its loop. -/
def main (w : World) (fuel : Nat) : Option (List MainEvent × Exit) :=
  match readSettings w.settingsFile with
  | .exited code trace => some (trace, .exited code)
  | .terminated trace => some (trace, .terminated)
  | .returned s trace =>
    if !w.cascadeLoad s.CASCADE_FILE_MAIN then
      some (trace ++ [.system "cls", .cout "Could not find the face cascade.", .system "pause"],
        .returned (-1))
    else if !w.cascadeLoad s.CASCADE_FILE_EYES then
      some (trace ++ [.system "cls", .cout "Could not find the eye cascade.", .system "pause"],
        .returned (-1))
    else if !w.cameraOpens then
      some (trace ++ [.system "cls", .cout "Error opening camera.", .system "pause"],
        .returned (-1))
    else
      (mainLoop w s fuel 0).map (fun r => (trace ++ r.1, r.2))

/-- Is the event an invocation of `detectAndDraw`? -/
def MainEvent.isDetect : MainEvent → Bool
  | .detectAndDraw _ => true
  | _ => false

/-- A settings line: the key, an equals sign, and the value between double-quotes. -/
def settingLine (key value : String) : Str :=
  key.toList ++ Char.ofNat 61 :: dquote :: (value.toList ++ [dquote])

/-- A well-formed settings file of three lines. -/
def exampleSettings : List Char :=
  settingLine "CASCADE_FILE_MAIN" "face.xml" ++ newline ::
    (settingLine "CASCADE_FILE_EYES" "eyes.xml" ++ newline ::
      (settingLine "IMAGE_DIR" "faces" ++ [newline]))

/-- A world for worked examples: the well-formed settings file, a camera that
opens (or not) and delivers `frameCount` one-sample frames in which the
detector finds nothing, no key pressed, an empty gallery. -/
def exampleWorld (loads : Str → Bool) (camera : Bool) (frameCount : Nat) : World where
  settingsFile := some exampleSettings
  cascadeLoad := loads
  cameraOpens := camera
  frames := fun i => if i < frameCount then ⟨1, 1, [0]⟩ else ⟨0, 0, []⟩
  keys := fun _ => -1
  directory := fun _ => some []
  cv := exampleCv [] []

/-! ## Normalised correlation -/

/-- The mean of the samples of an image. -/
def mean (xs : List Int) : ℚ := ((xs.sum : Int) : ℚ) / (xs.length : ℚ)

/-- The samples of an image with their mean subtracted. -/
def centered (xs : List Int) : List ℚ := xs.map (fun (x : Int) => (x : ℚ) - mean xs)

/-- The sum of the products of corresponding samples. -/
def dot (a b : List ℚ) : ℚ := (List.zipWith (fun x y => x * y) a b).sum

/-- The numerator of the normalised correlation coefficient. -/
def ccoeffNum (image templ : List Int) : ℚ := dot (centered templ) (centered image)

/-- The square of the denominator of the normalised correlation coefficient. -/
def ccoeffDenSq (image templ : List Int) : ℚ :=
  dot (centered templ) (centered templ) * dot (centered image) (centered image)

/-- Modelled from the spec: `cv::matchTemplate` with `TM_CCOEFF_NORMED` is
OpenCV code and not part of the sources.  For a template and an image of the
same size the result is the single value
`R = sum (T' * I') / sqrt (sum T'^2 * sum I'^2)`, with `T'` and `I'` the
samples minus their means: the normalized correlation of the spec, a value
between -1 and 1 that is 1.0 for a perfect pixel match.  Because of the
square root the value is characterised, not computed: `s` is `R` when
`s^2 * den^2 = num^2` and `s` has the sign of the numerator.  Where the
quotient is not defined OpenCV fixes the value, and so does the model: a
template without variance gives 1 (the whole result is set to 1), and an
image without variance under a template with variance gives 0. -/
def IsTmCcoeffNormed (image templ : List Int) (s : ℚ) : Prop :=
  if dot (centered templ) (centered templ) = 0 then s = 1
  else if dot (centered image) (centered image) = 0 then s = 0
  else s * s * ccoeffDenSq image templ = ccoeffNum image templ * ccoeffNum image templ
    ∧ (0 ≤ s ↔ 0 ≤ ccoeffNum image templ)

instance (image templ : List Int) (s : ℚ) : Decidable (IsTmCcoeffNormed image templ s) := by
  unfold IsTmCcoeffNormed
  infer_instance

/-! ## Helper lemmas: scores and traces -/

theorem bestScore_eq_none {l : List ℚ} : bestScore l = none ↔ l = [] := by
  cases l with
  | nil => simp [bestScore]
  | cons s rest =>
    simp only [bestScore]
    cases bestScore rest <;> simp

theorem bestScore_mem {l : List ℚ} {m : ℚ} (h : bestScore l = some m) :
    m ∈ l ∧ ∀ s ∈ l, s ≤ m := by
  induction l generalizing m with
  | nil => simp [bestScore] at h
  | cons a rest ih =>
    simp only [bestScore] at h
    cases hb : bestScore rest with
    | none =>
      rw [hb] at h
      have hr : rest = [] := bestScore_eq_none.mp hb
      subst hr
      simp at h
      subst h
      simp
    | some b =>
      rw [hb] at h
      simp at h
      obtain ⟨hbm, hle⟩ := ih hb
      subst h
      constructor
      · rcases le_total a b with hab | hab
        · rw [max_eq_right hab]; exact List.mem_cons_of_mem _ hbm
        · rw [max_eq_left hab]; exact List.mem_cons_self _ _
      · intro s hs
        rcases List.mem_cons.mp hs with rfl | hs
        · exact le_max_left _ _
        · exact le_trans (hle s hs) (le_max_right _ _)

theorem isMatch_bestScore_iff (l : List ℚ) :
    isMatch (bestScore l) = true ↔ ∃ s ∈ l, threshold < s := by
  cases hb : bestScore l with
  | none =>
    have hl : l = [] := bestScore_eq_none.mp hb
    subst hl
    simp [isMatch]
  | some m =>
    obtain ⟨hm, hle⟩ := bestScore_mem hb
    simp only [isMatch, decide_eq_true_eq]
    constructor
    · intro h; exact ⟨m, hm, h⟩
    · rintro ⟨s, hs, hlt⟩; exact lt_of_lt_of_le hlt (hle s hs)

theorem lastRectangle_append (a b : List Event) :
    lastRectangle (a ++ b) =
      match lastRectangle b with
      | some c => some c
      | none => lastRectangle a := by
  induction a with
  | nil => cases hb : lastRectangle b <;> simp [lastRectangle, hb]
  | cons e rest ih =>
    cases hb : lastRectangle b <;> rw [hb] at ih <;>
      cases e <;> simp [lastRectangle, ih]

theorem labels_append (a b : List Event) : labels (a ++ b) = labels a ++ labels b := by
  induction a with
  | nil => rfl
  | cons e rest ih => cases e <;> simp [labels, ih]

/-- An entry is stopped by `cv::resize` only in a region of empty size. -/
theorem sizeEmpty_of_resizeFailure {cv : OpenCV} {gray : Mat} {faceROI : Rect} {entry : Path}
    (h : entryOutcome cv gray faceROI entry = .resizeFailure) : faceROI.sizeEmpty = true := by
  unfold entryOutcome at h
  by_cases hs : faceROI.sizeEmpty = true
  · exact hs
  · exfalso
    simp only [hs] at h
    split at h
    · cases h
    · split at h
      · cases h
      · simp only [Bool.false_eq_true, if_false] at h
        split at h <;> cases h

/-- In a region of empty size no entry reaches the correlation. -/
theorem entryOutcome_of_sizeEmpty (cv : OpenCV) (gray : Mat) {faceROI : Rect} (entry : Path)
    (h : faceROI.sizeEmpty = true) :
    entryOutcome cv gray faceROI entry =
      if !hasValidImageExtension entry then .badExtension
      else if (cv.imread entry).empty then .decodeFailure else .resizeFailure := by
  unfold entryOutcome
  simp [h]

theorem scores_of_sizeEmpty (cv : OpenCV) (gray : Mat) {faceROI : Rect}
    (h : faceROI.sizeEmpty = true) (gallery : List Path) :
    scores cv gray faceROI gallery = [] := by
  induction gallery with
  | nil => rfl
  | cons entry rest ih =>
    simp only [scores, entryOutcome_of_sizeEmpty cv gray entry h, ih]
    split_ifs <;> rfl

/-- The last rectangle of the gallery loop is orange when some score is above
the threshold, and there is none otherwise. -/
theorem lastRectangle_compareGallery (cv : OpenCV) (gray : Mat) (faceROI : Rect)
    (gallery : List Path) :
    lastRectangle (compareGallery cv gray faceROI gallery).1 =
      if isMatch (bestScore (scores cv gray faceROI gallery)) then some orange else none := by
  induction gallery with
  | nil => simp [compareGallery, scores, bestScore, isMatch, lastRectangle]
  | cons entry rest ih =>
    have key : ∀ l : List ℚ, (isMatch (bestScore l) = true) = (∃ s ∈ l, threshold < s) :=
      fun l => propext (isMatch_bestScore_iff l)
    simp only [key] at ih ⊢
    cases ho : entryOutcome cv gray faceROI entry with
    | badExtension => simp [compareGallery, compareEntry, scores, ho, ih]
    | decodeFailure => simp [compareGallery, compareEntry, scores, ho, ih, lastRectangle]
    | resizeFailure =>
      have hs := scores_of_sizeEmpty cv gray (sizeEmpty_of_resizeFailure ho) rest
      simp [compareGallery, compareEntry, scores, ho, hs, lastRectangle]
    | correlationFailure what =>
      simp [compareGallery, compareEntry, scores, ho, ih, lastRectangle]
    | score maxVal =>
      by_cases hv : threshold < maxVal
      · simp only [compareGallery, compareEntry, scores, ho, hv, gt_iff_lt, if_true,
          lastRectangle, List.cons_append, List.nil_append, ih]
        have : ∃ s ∈ maxVal :: scores cv gray faceROI rest, threshold < s :=
          ⟨maxVal, List.mem_cons_self _ _, hv⟩
        simp only [this, if_true]
        split_ifs <;> rfl
      · simp only [compareGallery, compareEntry, scores, ho, hv, gt_iff_lt, if_false,
          lastRectangle, List.cons_append, List.nil_append, ih]
        simp [hv]

/-- C1: for every region and every gallery, the last rectangle the body of the
faces loop draws for the region is orange exactly when the maximum score over
the gallery is strictly greater than 0.1, and blue otherwise; for an empty
gallery the region gets the blue rectangle alone, without a label; a best
score of exactly 0.1 is not a match. -/
theorem last_rectangle_orange_iff_best_above (cv : OpenCV) (gray : Mat) (faceROI : Rect)
    (gallery : List Path) :
    lastRectangle (processFace cv gray (some gallery) faceROI).1 =
        some (if isMatch (bestScore (scores cv gray faceROI gallery)) then orange else blue)
    ∧ (isMatch (bestScore (scores cv gray faceROI gallery)) = true ↔
        ∃ m, m ∈ scores cv gray faceROI gallery ∧
          (∀ s ∈ scores cv gray faceROI gallery, s ≤ m) ∧ (1 / 10 : ℚ) < m)
    ∧ processFace cv gray (some []) faceROI = ([.rectangle faceROI blue 2], none)
    ∧ isMatch (some (1 / 10)) = false
    ∧ orange = ⟨0, 165, 255⟩ ∧ blue = ⟨255, 0, 0⟩ := by
  refine ⟨?_, ?_, rfl, ?_, rfl, rfl⟩
  · simp only [processFace, lastRectangle, lastRectangle_compareGallery]
    split_ifs <;> rfl
  · constructor
    · intro h
      cases hb : bestScore (scores cv gray faceROI gallery) with
      | none => rw [hb] at h; simp [isMatch] at h
      | some m =>
        rw [hb] at h
        obtain ⟨hm, hle⟩ := bestScore_mem hb
        refine ⟨m, hm, hle, ?_⟩
        simpa [isMatch, threshold] using h
    · rintro ⟨m, hm, _, hlt⟩
      exact (isMatch_bestScore_iff _).mpr ⟨m, hm, by simpa [threshold] using hlt⟩
  · simp [isMatch, threshold]

theorem labels_compareGallery (cv : OpenCV) (gray : Mat) (faceROI : Rect) (gallery : List Path) :
    labels (compareGallery cv gray faceROI gallery).1 =
      (gallery.filter (aboveThreshold cv gray faceROI)).map Path.filename := by
  induction gallery with
  | nil => rfl
  | cons entry rest ih =>
    cases ho : entryOutcome cv gray faceROI entry with
    | badExtension => simp [compareGallery, compareEntry, aboveThreshold, ho, ih]
    | decodeFailure => simp [compareGallery, compareEntry, aboveThreshold, ho, ih, labels]
    | resizeFailure =>
      have hs := sizeEmpty_of_resizeFailure ho
      have hnone : ∀ e : Path, aboveThreshold cv gray faceROI e = false := by
        intro e
        simp only [aboveThreshold, entryOutcome_of_sizeEmpty cv gray e hs]
        split_ifs <;> rfl
      have hf : rest.filter (aboveThreshold cv gray faceROI) = [] := by
        simp [List.filter_eq_nil_iff, hnone]
      simp [compareGallery, compareEntry, ho, labels, List.filter_cons, hnone, hf]
    | correlationFailure what =>
      simp [compareGallery, compareEntry, aboveThreshold, ho, ih, labels]
    | score maxVal =>
      by_cases hv : threshold < maxVal
      · simp [compareGallery, compareEntry, aboveThreshold, ho, hv, ih, labels]
      · simp [compareGallery, compareEntry, aboveThreshold, ho, hv, ih, labels]

theorem labels_processFace (cv : OpenCV) (gray : Mat) (faceROI : Rect) (gallery : List Path) :
    labels (processFace cv gray (some gallery) faceROI).1 =
      (gallery.filter (aboveThreshold cv gray faceROI)).map Path.filename := by
  simp [processFace, labels, labels_compareGallery]

/-- C2, as the code has it: the labels rendered for a region are the file
names of all gallery references whose score is above the threshold, one label
each, in directory order; the file name of a reference that attains the
maximum score of a matched region is among them. -/
theorem labels_are_all_references_above_threshold (cv : OpenCV) (gray : Mat) (faceROI : Rect)
    (gallery : List Path) :
    labels (processFace cv gray (some gallery) faceROI).1 =
        (gallery.filter (aboveThreshold cv gray faceROI)).map Path.filename
    ∧ ∀ entry ∈ gallery, ∀ m : ℚ, entryOutcome cv gray faceROI entry = .score m →
        bestScore (scores cv gray faceROI gallery) = some m → threshold < m →
        entry.filename ∈ labels (processFace cv gray (some gallery) faceROI).1 := by
  have h1 := labels_processFace cv gray faceROI gallery
  refine ⟨h1, ?_⟩
  intro entry he m ho _ hlt
  rw [h1]
  refine List.mem_map.mpr ⟨entry, List.mem_filter.mpr ⟨he, ?_⟩, rfl⟩
  simp [aboveThreshold, ho, hlt]

/-- C2, counterexample: with two references above the threshold, scoring 0.9
and 0.5, the region gets two labels, and the one rendered last belongs to the
reference with the lower score. -/
theorem two_labels_for_one_region :
    labels (processFace (exampleCv [] [("a.jpg".toList, 9 / 10), ("b.jpg".toList, 1 / 2)])
        ⟨1, 1, [0]⟩ (some [file "a.jpg", file "b.jpg"]) ⟨0, 0, 40, 40⟩).1
      = ["a.jpg".toList, "b.jpg".toList]
    ∧ bestScore (scores (exampleCv [] [("a.jpg".toList, 9 / 10), ("b.jpg".toList, 1 / 2)])
        ⟨1, 1, [0]⟩ ⟨0, 0, 40, 40⟩ [file "a.jpg", file "b.jpg"]) = some (9 / 10) := by
  have ha : entryOutcome (exampleCv [] [("a.jpg".toList, 9 / 10), ("b.jpg".toList, 1 / 2)])
      ⟨1, 1, [0]⟩ ⟨0, 0, 40, 40⟩ (file "a.jpg") = .score (9 / 10) := by rfl
  have hb : entryOutcome (exampleCv [] [("a.jpg".toList, 9 / 10), ("b.jpg".toList, 1 / 2)])
      ⟨1, 1, [0]⟩ ⟨0, 0, 40, 40⟩ (file "b.jpg") = .score (1 / 2) := by rfl
  constructor
  · rw [labels_processFace]
    simp only [List.filter, aboveThreshold, ha, hb, threshold]
    norm_num
    decide
  · simp only [scores, ha, hb, bestScore]
    norm_num

theorem drawings_append (a b : List Event) : drawings (a ++ b) = drawings a ++ drawings b := by
  simp [drawings]

theorem compareGallery_cons_none {cv : OpenCV} {gray : Mat} {faceROI : Rect} {entry : Path}
    {events : List Event} (h : compareEntry cv gray faceROI entry = (events, none))
    (rest : List Path) :
    compareGallery cv gray faceROI (entry :: rest) =
      (events ++ (compareGallery cv gray faceROI rest).1,
        (compareGallery cv gray faceROI rest).2) := by
  simp [compareGallery, h]

theorem compareGallery_cons_some {cv : OpenCV} {gray : Mat} {faceROI : Rect} {entry : Path}
    {events : List Event} {thrown : Thrown}
    (h : compareEntry cv gray faceROI entry = (events, some thrown)) (rest : List Path) :
    compareGallery cv gray faceROI (entry :: rest) = (events, some thrown) := by
  simp [compareGallery, h]

/-- An entry that is skipped draws nothing and throws nothing. -/
theorem compareEntry_of_isSkipped {cv : OpenCV} {gray : Mat} {faceROI : Rect} {entry : Path}
    (h : (entryOutcome cv gray faceROI entry).isSkipped = true) :
    ∃ events, compareEntry cv gray faceROI entry = (events, none) ∧ drawings events = [] := by
  cases ho : entryOutcome cv gray faceROI entry <;>
    simp [ho, Outcome.isSkipped] at h <;>
    simp [compareEntry, ho, drawings, Event.isDrawing]

/-- Removing the entries that fail to decode or to correlate changes neither
the drawing commands of the gallery loop nor the exception it lets escape. -/
theorem compareGallery_filter_skipped (cv : OpenCV) (gray : Mat) (faceROI : Rect)
    (gallery : List Path) :
    drawings (compareGallery cv gray faceROI gallery).1 =
        drawings (compareGallery cv gray faceROI
          (gallery.filter (fun e => !(entryOutcome cv gray faceROI e).isSkipped))).1
    ∧ (compareGallery cv gray faceROI gallery).2 =
        (compareGallery cv gray faceROI
          (gallery.filter (fun e => !(entryOutcome cv gray faceROI e).isSkipped))).2 := by
  induction gallery with
  | nil => exact ⟨rfl, rfl⟩
  | cons entry rest ih =>
    obtain ⟨ih1, ih2⟩ := ih
    by_cases hk : (entryOutcome cv gray faceROI entry).isSkipped = true
    · obtain ⟨events, he, hd⟩ := compareEntry_of_isSkipped hk
      rw [List.filter_cons]
      simp only [hk, Bool.not_true, Bool.false_eq_true, if_false]
      rw [compareGallery_cons_none he]
      simp only [drawings_append, hd, List.nil_append]
      exact ⟨ih1, ih2⟩
    · rw [List.filter_cons]
      have hk2 : (entryOutcome cv gray faceROI entry).isSkipped = false := by simpa using hk
      simp only [hk2, Bool.not_false, if_true]
      rcases hc : compareEntry cv gray faceROI entry with ⟨events, _ | thrown⟩
      · rw [compareGallery_cons_none hc, compareGallery_cons_none hc]
        simp only [drawings_append, ih1, ih2]
        exact ⟨trivial, trivial⟩
      · rw [compareGallery_cons_some hc, compareGallery_cons_some hc]
        exact ⟨rfl, rfl⟩

/-- In a region of empty size the gallery loop draws nothing, and it throws
exactly when some entry gets as far as `cv::resize`. -/
theorem compareGallery_of_sizeEmpty (cv : OpenCV) (gray : Mat) {faceROI : Rect}
    (hs : faceROI.sizeEmpty = true) (gallery : List Path) :
    drawings (compareGallery cv gray faceROI gallery).1 = [] ∧
    (compareGallery cv gray faceROI gallery).2 =
      if gallery.any (reachesResize cv) then some .cvException else none := by
  induction gallery with
  | nil => exact ⟨rfl, rfl⟩
  | cons entry rest ih =>
    obtain ⟨ih1, ih2⟩ := ih
    have ho := entryOutcome_of_sizeEmpty cv gray entry hs
    by_cases hx : hasValidImageExtension entry = true
    · by_cases hd : (cv.imread entry).empty = true
      · simp only [hx, hd, Bool.not_true, Bool.false_eq_true, if_false, if_true] at ho
        have hc : compareEntry cv gray faceROI entry =
            ([.cout ("Failed to read image: " ++ String.mk entry.filename)], none) := by
          simp [compareEntry, ho]
        rw [compareGallery_cons_none hc]
        simp only [drawings_append, ih1, ih2, List.any_cons, reachesResize, hx, hd]
        simp [drawings, Event.isDrawing]
      · simp only [hx, hd, Bool.not_true, Bool.false_eq_true, if_false] at ho
        have hc : compareEntry cv gray faceROI entry = ([], some .cvException) := by
          simp [compareEntry, ho]
        rw [compareGallery_cons_some hc]
        simp [drawings, List.any_cons, reachesResize, hx, hd]
    · simp only [hx, Bool.not_eq_true] at ho
      have hx2 : hasValidImageExtension entry = false := by simpa using hx
      simp only [hx2, Bool.not_false, if_true] at ho
      have hc : compareEntry cv gray faceROI entry = ([], none) := by
        simp [compareEntry, ho]
      rw [compareGallery_cons_none hc]
      simp [ih1, ih2, List.any_cons, reachesResize, hx2]

/-- C7: a gallery entry whose image fails to decode or whose correlation
throws is skipped without aborting the evaluation of the region: it draws
nothing and lets no exception escape, and the drawing commands for the region
(and the way the region's evaluation ends) are those for the gallery with all
such entries removed. -/
theorem failing_entries_are_skipped (cv : OpenCV) (gray : Mat) (faceROI : Rect)
    (gallery : List Path) :
    drawings (processFace cv gray (some gallery) faceROI).1 =
        drawings (processFace cv gray
          (some (gallery.filter (fun e => !(entryOutcome cv gray faceROI e).isSkipped))) faceROI).1
    ∧ (processFace cv gray (some gallery) faceROI).2 =
        (processFace cv gray
          (some (gallery.filter (fun e => !(entryOutcome cv gray faceROI e).isSkipped))) faceROI).2
    ∧ ∀ entry : Path, (entryOutcome cv gray faceROI entry).isSkipped = true →
        drawings (compareEntry cv gray faceROI entry).1 = [] ∧
        (compareEntry cv gray faceROI entry).2 = none := by
  obtain ⟨h1, h2⟩ := compareGallery_filter_skipped cv gray faceROI gallery
  refine ⟨?_, ?_, ?_⟩
  · simp only [processFace, drawings, List.filter_cons] at h1 ⊢
    simp [Event.isDrawing, h1]
  · simpa [processFace] using h2
  · intro entry hs
    obtain ⟨events, he, hd⟩ := compareEntry_of_isSkipped hs
    rw [he]
    exact ⟨hd, rfl⟩

theorem extensionLoop_eq_true_iff (extension : Str) (valid : List Str) :
    extensionLoop extension valid = true ↔ extension ∈ valid := by
  induction valid with
  | nil => simp [extensionLoop]
  | cons v rest ih =>
    simp only [extensionLoop, List.mem_cons]
    by_cases h : extension = v
    · simp [h]
    · simp [h, ih]

/-- C8: `hasValidImageExtension` returns true exactly when the extension of
the path is one of .jpg, .jpeg, .png, .bmp, character for character; an
upper-case or mixed-case variant, an empty extension or any other extension
gives false, and an entry for which it gives false produces no event at all:
it is neither read nor compared with the region. -/
theorem valid_extension_iff_exact (path : Path) :
    (hasValidImageExtension path = true ↔
        path.extension = ".jpg".toList ∨ path.extension = ".jpeg".toList ∨
        path.extension = ".png".toList ∨ path.extension = ".bmp".toList)
    ∧ (∀ (cv : OpenCV) (gray : Mat) (faceROI : Rect), hasValidImageExtension path = false →
        entryOutcome cv gray faceROI path = .badExtension ∧
        compareEntry cv gray faceROI path = ([], none))
    ∧ hasValidImageExtension (file "face.JPG") = false
    ∧ hasValidImageExtension (file "face.Png") = false
    ∧ hasValidImageExtension (file "face") = false
    ∧ hasValidImageExtension (file "face.gif") = false
    ∧ hasValidImageExtension (file "face.jpg") = true := by
  refine ⟨?_, ?_, by decide, by decide, by decide, by decide, by decide⟩
  · simp [hasValidImageExtension, extensionLoop_eq_true_iff, validExtensions]
  · intro cv gray faceROI h
    have ho : entryOutcome cv gray faceROI path = .badExtension := by
      simp [entryOutcome, h]
    exact ⟨ho, by simp [compareEntry, ho]⟩

/-- C6, as the code has it: for a region whose width or height is zero, the
region's blue rectangle is drawn and then, as soon as a gallery entry has a
valid extension and decodes, the failure of `cv::resize` leaves
`detectAndDraw`: nothing else is drawn and the remaining regions are not
processed.  Only when no entry gets as far as the resize is the region
completed, with its blue rectangle alone, and the remaining regions follow. -/
theorem degenerate_region_resize_failure_propagates (cv : OpenCV) (gray : Mat)
    (gallery : List Path) (faceROI : Rect) (rest : List Rect)
    (hzero : faceROI.width = 0 ∨ faceROI.height = 0) :
    (gallery.any (reachesResize cv) = true →
        (processFaces cv gray (some gallery) (faceROI :: rest)).2 = some .cvException ∧
        drawings (processFaces cv gray (some gallery) (faceROI :: rest)).1 =
          [.rectangle faceROI blue 2])
    ∧ (gallery.any (reachesResize cv) = false →
        drawings (processFace cv gray (some gallery) faceROI).1 = [.rectangle faceROI blue 2] ∧
        processFaces cv gray (some gallery) (faceROI :: rest) =
          ((processFace cv gray (some gallery) faceROI).1 ++
              (processFaces cv gray (some gallery) rest).1,
            (processFaces cv gray (some gallery) rest).2)) := by
  have hs : faceROI.sizeEmpty = true := by
    rcases hzero with h | h <;> simp [Rect.sizeEmpty, h]
  obtain ⟨h1, h2⟩ := compareGallery_of_sizeEmpty cv gray hs gallery
  constructor
  · intro hany
    have h2 : (compareGallery cv gray faceROI gallery).2 = some .cvException := by
      rw [h2, hany]; rfl
    have hp : (processFace cv gray (some gallery) faceROI).2 = some .cvException := by
      simpa [processFace] using h2
    have hd : drawings (processFace cv gray (some gallery) faceROI).1 =
        [.rectangle faceROI blue 2] := by
      simp only [processFace, drawings, List.filter_cons, Event.isDrawing, if_true]
      simpa [drawings] using h1
    rcases hpf : processFace cv gray (some gallery) faceROI with ⟨events, thrown⟩
    rw [hpf] at hp hd
    simp only at hp hd
    subst hp
    simp [processFaces, hpf, hd]
  · intro hany
    have h2 : (compareGallery cv gray faceROI gallery).2 = none := by
      rw [h2, hany]; rfl
    have hp : (processFace cv gray (some gallery) faceROI).2 = none := by
      simpa [processFace] using h2
    have hd : drawings (processFace cv gray (some gallery) faceROI).1 =
        [.rectangle faceROI blue 2] := by
      simp only [processFace, drawings, List.filter_cons, Event.isDrawing, if_true]
      simpa [drawings] using h1
    refine ⟨hd, ?_⟩
    rcases hpf : processFace cv gray (some gallery) faceROI with ⟨events, thrown⟩
    rw [hpf] at hp
    simp only at hp
    subst hp
    simp [processFaces, hpf]

/-- C6, witness: a region of width zero and a gallery of one file that decodes. -/
theorem degenerate_region_resize_failure_propagates_witness :
    (processFaces (exampleCv [] [("a.jpg".toList, 9 / 10)]) ⟨1, 1, [0]⟩ (some [file "a.jpg"])
        [⟨0, 0, 0, 10⟩, ⟨5, 5, 40, 40⟩]).2 = some .cvException ∧
    drawings (processFaces (exampleCv [] [("a.jpg".toList, 9 / 10)]) ⟨1, 1, [0]⟩
        (some [file "a.jpg"]) [⟨0, 0, 0, 10⟩, ⟨5, 5, 40, 40⟩]).1 =
      [.rectangle ⟨0, 0, 0, 10⟩ blue 2] :=
  (degenerate_region_resize_failure_propagates (exampleCv [] [("a.jpg".toList, 9 / 10)])
    ⟨1, 1, [0]⟩ [file "a.jpg"] ⟨0, 0, 0, 10⟩ [⟨5, 5, 40, 40⟩] (Or.inl rfl)).1 (by decide)

/-- C6, counterexample: the detector reports a region of width zero and then
a region of 40 by 40, and the gallery holds one file that decodes.  The
failure of `cv::resize` leaves `detectAndDraw` after the first region's blue
rectangle; the second region is never processed. -/
theorem degenerate_region_is_not_skipped :
    detectAndDraw (exampleCv [⟨0, 0, 0, 10⟩, ⟨5, 5, 40, 40⟩] [("a.jpg".toList, 9 / 10)])
        (some [file "a.jpg"]) "face.xml".toList ⟨1, 1, [0]⟩
      = ([.rectangle ⟨0, 0, 0, 10⟩ blue 2], some .cvException) := by
  decide

/-! ## Helper lemmas: quotes in a line -/

theorem find_first_of_split {pre post : Str} {c : Char} (hpre : c ∉ pre) :
    find_first_of (pre ++ c :: post) c = pre.length := by
  have hmem : c ∈ pre ++ c :: post := by simp
  simp only [find_first_of, hmem, if_true]
  rw [List.indexOf_append_of_not_mem hpre, List.indexOf_cons_self]
  simp

theorem find_last_of_split {pre post : Str} {c : Char} (hpost : c ∉ post) :
    find_last_of (pre ++ c :: post) c = pre.length := by
  have hmem : c ∈ pre ++ c :: post := by simp
  have hrev : (pre ++ c :: post).reverse = post.reverse ++ c :: pre.reverse := by simp
  have hpost2 : c ∉ post.reverse := by simpa using hpost
  simp only [find_last_of, hmem, if_true]
  rw [hrev, List.indexOf_append_of_not_mem hpost2, List.indexOf_cons_self]
  simp only [List.length_append, List.length_cons, List.length_reverse]
  omega

/-- A line with a quote splits at its first quote. -/
theorem split_first {l : Str} {c : Char} (h : c ∈ l) :
    ∃ pre rest, l = pre ++ c :: rest ∧ c ∉ pre :=
  List.eq_append_cons_of_mem h

/-- A line with a quote splits at its last quote. -/
theorem split_last {l : Str} {c : Char} (h : c ∈ l) :
    ∃ front post, l = front ++ c :: post ∧ c ∉ post := by
  have hr : c ∈ l.reverse := by simpa using h
  obtain ⟨a, b, hab, ha⟩ := List.eq_append_cons_of_mem hr
  refine ⟨b.reverse, a.reverse, ?_, by simpa using ha⟩
  have := congrArg List.reverse hab
  simpa using this

/-- A line with at least two quotes splits at its first and its last quote. -/
theorem split_two_quotes {l : Str} {c : Char} (h : 2 ≤ l.count c) :
    ∃ pre mid post, l = pre ++ c :: (mid ++ c :: post) ∧ c ∉ pre ∧ c ∉ post := by
  have hmem : c ∈ l := List.count_pos_iff.mp (by omega)
  obtain ⟨pre, rest, hl, hpre⟩ := split_first hmem
  have hc : l.count c = rest.count c + 1 := by
    rw [hl, List.count_append, List.count_eq_zero_of_not_mem hpre, List.count_cons_self]
    omega
  have hrest : c ∈ rest := List.count_pos_iff.mp (by omega)
  obtain ⟨mid, post, hr, hpost⟩ := split_last hrest
  exact ⟨pre, mid, post, by rw [hl, hr], hpre, hpost⟩

/-- A line with exactly one quote splits at it. -/
theorem split_one_quote {l : Str} {c : Char} (h : l.count c = 1) :
    ∃ pre post, l = pre ++ c :: post ∧ c ∉ pre ∧ c ∉ post := by
  have hmem : c ∈ l := List.count_pos_iff.mp (by omega)
  obtain ⟨pre, post, hl, hpre⟩ := split_first hmem
  refine ⟨pre, post, hl, hpre, ?_⟩
  have hc : l.count c = post.count c + 1 := by
    rw [hl, List.count_append, List.count_eq_zero_of_not_mem hpre, List.count_cons_self]
    omega
  exact List.count_eq_zero.mp (by omega)

/-- The value expression on a line with two or more quotes: what stands
between the first and the last. -/
theorem quotedValue_two_quotes {pre mid post : Str}
    (hlen : (pre ++ dquote :: (mid ++ dquote :: post)).length < npos)
    (hpre : dquote ∉ pre) (hpost : dquote ∉ post) :
    quotedValue (pre ++ dquote :: (mid ++ dquote :: post)) = some mid := by
  have hfirst := @find_first_of_split pre (mid ++ dquote :: post) dquote hpre
  have hlast : find_last_of (pre ++ dquote :: (mid ++ dquote :: post)) dquote
      = pre.length + 1 + mid.length := by
    have h := @find_last_of_split (pre ++ dquote :: mid) post dquote hpost
    simp only [List.append_assoc, List.cons_append] at h
    rw [h]
    simp only [List.length_append, List.length_cons]
    omega
  simp only [List.length_append, List.length_cons, npos, SIZE] at hlen
  unfold quotedValue
  rw [hfirst, hlast]
  have h1 : sizeAdd pre.length 1 = pre.length + 1 := by
    simp only [sizeAdd, SIZE]; omega
  have h2 : sizeSub (pre.length + 1 + mid.length) pre.length = mid.length + 1 := by
    simp only [sizeSub, SIZE]; omega
  have h3 : sizeSub (mid.length + 1) 1 = mid.length := by
    simp only [sizeSub, SIZE]; omega
  rw [h1, h2, h3]
  have hnot : ¬ (pre.length + 1 > (pre ++ dquote :: (mid ++ dquote :: post)).length) := by
    simp only [List.length_append, List.length_cons]; omega
  simp only [substr, hnot, if_false]
  have hdrop : (pre ++ dquote :: (mid ++ dquote :: post)).drop (pre.length + 1)
      = mid ++ dquote :: post := by
    have : pre ++ dquote :: (mid ++ dquote :: post) = (pre ++ [dquote]) ++ (mid ++ dquote :: post) := by
      simp
    rw [this, List.drop_append_eq_append_drop]
    simp
  rw [hdrop]
  simp

/-- The value expression on a line with exactly one quote: the count wraps
around to `npos` and the whole rest of the line is taken. -/
theorem quotedValue_one_quote {pre post : Str}
    (hlen : (pre ++ dquote :: post).length < npos)
    (hpre : dquote ∉ pre) (hpost : dquote ∉ post) :
    quotedValue (pre ++ dquote :: post) = some post := by
  have hfirst := @find_first_of_split pre post dquote hpre
  have hlast := @find_last_of_split pre post dquote hpost
  simp only [List.length_append, List.length_cons, npos, SIZE] at hlen
  unfold quotedValue
  rw [hfirst, hlast]
  have h1 : sizeAdd pre.length 1 = pre.length + 1 := by
    simp only [sizeAdd, SIZE]; omega
  have h2 : sizeSub pre.length pre.length = 0 := by
    simp only [sizeSub, SIZE]; omega
  have h3 : sizeSub 0 1 = npos := by
    simp only [sizeSub, SIZE, npos]; norm_num
  rw [h1, h2, h3]
  have hnot : ¬ (pre.length + 1 > (pre ++ dquote :: post).length) := by
    simp only [List.length_append, List.length_cons]; omega
  simp only [substr, hnot, if_false]
  have hdrop : (pre ++ dquote :: post).drop (pre.length + 1) = post := by
    have : pre ++ dquote :: post = (pre ++ [dquote]) ++ post := by simp
    rw [this, List.drop_append_eq_append_drop]
    simp
  rw [hdrop]
  congr 1
  apply List.take_of_length_le
  simp only [npos, SIZE]
  omega

/-! ## Theorems about `readSettings` -/

theorem isPrefixOf_iff_append (p s : Str) : p.isPrefixOf s = true ↔ ∃ t, s = p ++ t := by
  induction p generalizing s with
  | nil => simp
  | cons a p ih =>
    cases s with
    | nil => simp [List.isPrefixOf]
    | cons b s =>
      simp only [List.isPrefixOf, Bool.and_eq_true, beq_iff_eq, ih, List.cons_append,
        List.cons.injEq]
      constructor
      · rintro ⟨rfl, t, rfl⟩; exact ⟨t, rfl, rfl⟩
      · rintro ⟨t, rfl, rfl⟩; exact ⟨rfl, t, rfl⟩

/-- The search `find` succeeds exactly when the pattern occurs in the string. -/
theorem findFrom_ne_npos_iff (pat s : Str) (i : Nat) (h : i + s.length < npos) :
    findFrom pat s i ≠ npos ↔ ∃ a b, s = a ++ (pat ++ b) := by
  induction s generalizing i with
  | nil =>
    simp only [findFrom]
    by_cases hp : pat = []
    · subst hp
      simp only [if_true]
      constructor
      · intro _; exact ⟨[], [], rfl⟩
      · intro _; simp only [List.length_nil] at h; omega
    · simp only [hp, if_false, ne_eq, not_true_eq_false, false_iff]
      rintro ⟨a, b, hab⟩
      have h1 := congrArg List.length hab
      simp only [List.length_nil, List.length_append] at h1
      have : pat.length = 0 := by omega
      exact hp (List.length_eq_zero.mp this)
  | cons c cs ih =>
    simp only [List.length_cons] at h
    simp only [findFrom]
    by_cases hp : pat.isPrefixOf (c :: cs) = true
    · simp only [hp, if_true]
      obtain ⟨t, ht⟩ := (isPrefixOf_iff_append pat (c :: cs)).mp hp
      constructor
      · intro _; exact ⟨[], t, by simpa using ht⟩
      · intro _; omega
    · simp only [hp, Bool.false_eq_true, if_false]
      rw [ih (i + 1) (by omega)]
      constructor
      · rintro ⟨a, b, rfl⟩; exact ⟨c :: a, b, rfl⟩
      · rintro ⟨a, b, hab⟩
        cases a with
        | nil =>
          exfalso
          exact hp ((isPrefixOf_iff_append pat (c :: cs)).mpr ⟨b, by simpa using hab⟩)
        | cons a0 a =>
          simp only [List.cons_append, List.cons.injEq] at hab
          exact ⟨a, b, hab.2⟩

/-- The key chosen for a line is the first of the three, in the order of the
`if` chain, whose text occurs in the line. -/
theorem lineKey_eq_some_iff (line : Str) (hlen : line.length < npos) (k : Key) :
    lineKey line = some k ↔
      (∃ a b, line = a ++ (k.text ++ b)) ∧
      match k with
      | .cascadeFileMain => True
      | .cascadeFileEyes => ¬ ∃ a b, line = a ++ (Key.cascadeFileMain.text ++ b)
      | .imageDir => (¬ ∃ a b, line = a ++ (Key.cascadeFileMain.text ++ b)) ∧
          ¬ ∃ a b, line = a ++ (Key.cascadeFileEyes.text ++ b) := by
  have hf : ∀ pat, find line pat ≠ npos ↔ ∃ a b, line = a ++ (pat ++ b) :=
    fun pat => findFrom_ne_npos_iff pat line 0 (by omega)
  rw [← hf k.text]
  have e1 := hf Key.cascadeFileMain.text
  have e2 := hf Key.cascadeFileEyes.text
  unfold lineKey
  by_cases h1 : find line Key.cascadeFileMain.text = npos
  · by_cases h2 : find line Key.cascadeFileEyes.text = npos
    · by_cases h3 : find line Key.imageDir.text = npos
      · cases k <;> simp [h1, h2, h3, ← e1, ← e2]
      · cases k <;> simp [h1, h2, h3, ← e1, ← e2]
    · cases k <;> simp [h1, h2, ← e1, ← e2]
  · cases k <;> simp [h1, ← e1, ← e2]

/-- C3, as the code has it: for every settings line with at least two
double-quote characters, the key the line is stored under is the first of
CASCADE_FILE_MAIN, CASCADE_FILE_EYES, IMAGE_DIR that occurs in it, and the
value stored for that key is exactly what stands between the first and the
last double-quote of the line (inner quotes kept, empty for adjacent quotes);
the other two globals are left as they were. -/
theorem value_between_first_and_last_quote (s : Settings) (line : Str) (k : Key)
    (hlen : line.length < npos) (hkey : lineKey line = some k)
    (hquotes : 2 ≤ line.count dquote) :
    ∃ pre mid post, line = pre ++ dquote :: (mid ++ dquote :: post) ∧
      dquote ∉ pre ∧ dquote ∉ post ∧
      processLine s line = some (s.set k mid) ∧
      (s.set k mid).get k = mid ∧ ∀ k2, k2 ≠ k → (s.set k mid).get k2 = s.get k2 := by
  obtain ⟨pre, mid, post, hl, hpre, hpost⟩ := split_two_quotes hquotes
  refine ⟨pre, mid, post, hl, hpre, hpost, ?_, ?_, ?_⟩
  · have hq := quotedValue_two_quotes (hl ▸ hlen) hpre hpost
    rw [← hl] at hq
    simp [processLine, hkey, hq]
  · cases k <;> rfl
  · intro k2 hk2
    cases k <;> cases k2 <;> first | rfl | exact absurd rfl hk2


/-- C3, witness: the line that sets IMAGE_DIR to the quoted value faces. -/
theorem value_between_first_and_last_quote_witness :
    ∃ pre mid post, settingLine "IMAGE_DIR" "faces" = pre ++ dquote :: (mid ++ dquote :: post) ∧
      dquote ∉ pre ∧ dquote ∉ post ∧
      processLine Settings.unset (settingLine "IMAGE_DIR" "faces") =
        some (Settings.unset.set .imageDir mid) ∧
      (Settings.unset.set .imageDir mid).get .imageDir = mid ∧
      ∀ k2, k2 ≠ Key.imageDir →
        (Settings.unset.set .imageDir mid).get k2 = Settings.unset.get k2 :=
  value_between_first_and_last_quote Settings.unset (settingLine "IMAGE_DIR" "faces") .imageDir
    (by decide) (by decide) (by decide)

/-- C3, counterexample: the line that sets IMAGE_DIR to the quoted value faces
and goes on with the remark `# not CASCADE_FILE_MAIN`
contains the recognised key IMAGE_DIR and two double-quotes, yet nothing is
stored for IMAGE_DIR: the value goes to CASCADE_FILE_MAIN. -/
theorem value_not_stored_for_second_key :
    find (settingLine "IMAGE_DIR" "faces" ++ " # not CASCADE_FILE_MAIN".toList)
        Key.imageDir.text ≠ npos ∧
    2 ≤ (settingLine "IMAGE_DIR" "faces" ++ " # not CASCADE_FILE_MAIN".toList).count dquote ∧
    processLine Settings.unset
        (settingLine "IMAGE_DIR" "faces" ++ " # not CASCADE_FILE_MAIN".toList) =
      some ⟨"faces".toList, [], []⟩ ∧
    (Settings.get ⟨"faces".toList, [], []⟩ .imageDir ≠ "faces".toList) := by
  decide

/-- C4, as the code has it: for every settings line with exactly one
double-quote character, no error is raised and the value stored (for the first
recognised key that occurs in the line) is the whole rest of the line after
that quote, because the length `last - first - 1` wraps around to `npos`; the
value is empty only when the quote is the last character of the line. -/
theorem one_quote_stores_rest_of_line (s : Settings) (line : Str) (k : Key)
    (hlen : line.length < npos) (hkey : lineKey line = some k)
    (hquotes : line.count dquote = 1) :
    ∃ pre post, line = pre ++ dquote :: post ∧ dquote ∉ pre ∧ dquote ∉ post ∧
      processLine s line = some (s.set k post) ∧ (s.set k post).get k = post ∧
      ((s.set k post).get k = [] ↔ line.getLast? = some dquote) := by
  obtain ⟨pre, post, hl, hpre, hpost⟩ := split_one_quote hquotes
  have hget : (s.set k post).get k = post := by cases k <;> rfl
  refine ⟨pre, post, hl, hpre, hpost, ?_, hget, ?_⟩
  · have hq := quotedValue_one_quote (hl ▸ hlen) hpre hpost
    rw [← hl] at hq
    simp [processLine, hkey, hq]
  · rw [hget, hl]
    constructor
    · rintro rfl; simp
    · intro h
      by_contra hne
      have hlast : (pre ++ dquote :: post).getLast? = post.getLast? := by
        rw [List.getLast?_append]
        cases post with
        | nil => exact absurd rfl hne
        | cons p ps =>
          obtain ⟨x, hx⟩ : ∃ x, (p :: ps).getLast? = some x :=
            ⟨_, List.getLast?_eq_getLast _ (by simp)⟩
          simp [hx]
      rw [hlast] at h
      exact hpost (List.mem_of_getLast?_eq_some h)

/-- C4, witness: the line IMAGE_DIR, equals sign, double-quote, images, whose
closing quote is missing. -/
theorem one_quote_stores_rest_of_line_witness :
    ∃ pre post, "IMAGE_DIR=".toList ++ dquote :: "images".toList = pre ++ dquote :: post ∧
      dquote ∉ pre ∧ dquote ∉ post ∧
      processLine Settings.unset ("IMAGE_DIR=".toList ++ dquote :: "images".toList) =
        some (Settings.unset.set .imageDir post) ∧
      (Settings.unset.set .imageDir post).get .imageDir = post ∧
      ((Settings.unset.set .imageDir post).get .imageDir = [] ↔
        ("IMAGE_DIR=".toList ++ dquote :: "images".toList).getLast? = some dquote) :=
  one_quote_stores_rest_of_line Settings.unset ("IMAGE_DIR=".toList ++ dquote :: "images".toList)
    .imageDir (by decide) (by decide) (by decide)

/-- C4, counterexample: the line IMAGE_DIR, equals sign, double-quote, images
has a recognised key and
exactly one double-quote; `readSettings` returns normally and has stored the
non-empty value `images` for IMAGE_DIR. -/
theorem missing_closing_quote_stores_nonempty :
    find ("IMAGE_DIR=".toList ++ dquote :: "images".toList) Key.imageDir.text ≠ npos ∧
    ("IMAGE_DIR=".toList ++ dquote :: "images".toList).count dquote = 1 ∧
    readSettings (some ("IMAGE_DIR=".toList ++ dquote :: "images".toList)) =
      .returned ⟨[], [], "images".toList⟩ [] ∧
    "images".toList ≠ [] := by
  decide

/-- C5: an unopenable settings file ends the process with `exit(1)`, but an
empty settings file does not: the message is printed and `readSettings`
returns to `main` with the three globals unset. -/
theorem empty_settings_file_returns_to_main :
    readSettings (some []) =
        .returned Settings.unset [.cout "settings.conf is empty or corrupt."]
    ∧ readSettings none =
        .exited 1 [.cout "Failed to open settings.conf file.", .system "pause"] := by
  decide

/-! ## Theorems about `main` -/

/-- C9: when `readSettings` has returned and the primary model fails to load,
or the eyes model fails to load, or the camera fails to open, `main` returns
-1 and its trace holds no invocation of `detectAndDraw`; and whenever `main`
returns 0, `readSettings` had returned, both models had loaded and the camera
had opened. -/
theorem startup_failure_returns_minus_one (w : World) (fuel : Nat) :
    (∀ s trace, readSettings w.settingsFile = .returned s trace →
        (w.cascadeLoad s.CASCADE_FILE_MAIN = false ∨ w.cascadeLoad s.CASCADE_FILE_EYES = false ∨
          w.cameraOpens = false) →
        ∃ t, main w fuel = some (t, .returned (-1)) ∧ t.any MainEvent.isDetect = false)
    ∧ (∀ t, main w fuel = some (t, .returned 0) →
        ∃ s trace, readSettings w.settingsFile = .returned s trace ∧
          w.cascadeLoad s.CASCADE_FILE_MAIN = true ∧ w.cascadeLoad s.CASCADE_FILE_EYES = true ∧
          w.cameraOpens = true) := by
  constructor
  · intro s trace hset hfail
    have htrace : trace.any MainEvent.isDetect = false := by
      unfold readSettings at hset
      split at hset
      · split at hset
        · cases hset; rfl
        · split at hset
          · cases hset; rfl
          · cases hset
      · cases hset
    unfold main
    rw [hset]
    simp only
    by_cases h1 : w.cascadeLoad s.CASCADE_FILE_MAIN = true
    · by_cases h2 : w.cascadeLoad s.CASCADE_FILE_EYES = true
      · have h3 : w.cameraOpens = false := by
          rcases hfail with h | h | h
          · rw [h1] at h; cases h
          · rw [h2] at h; cases h
          · exact h
        simp only [h1, h2, h3, Bool.not_true, Bool.not_false, Bool.false_eq_true, if_false,
          if_true]
        exact ⟨_, rfl, by simp [List.any_append, htrace, MainEvent.isDetect]⟩
      · have h2 : w.cascadeLoad s.CASCADE_FILE_EYES = false := by simpa using h2
        simp only [h1, h2, Bool.not_true, Bool.not_false, Bool.false_eq_true, if_false,
          if_true]
        exact ⟨_, rfl, by simp [List.any_append, htrace, MainEvent.isDetect]⟩
    · have h1 : w.cascadeLoad s.CASCADE_FILE_MAIN = false := by simpa using h1
      simp only [h1, Bool.not_false, if_true]
      exact ⟨_, rfl, by simp [List.any_append, htrace, MainEvent.isDetect]⟩
  · intro t hmain
    unfold main at hmain
    cases hset : readSettings w.settingsFile with
    | exited code trace => rw [hset] at hmain; simp at hmain
    | terminated trace => rw [hset] at hmain; simp at hmain
    | returned s trace =>
      rw [hset] at hmain
      simp only at hmain
      by_cases h1 : w.cascadeLoad s.CASCADE_FILE_MAIN = true
      · by_cases h2 : w.cascadeLoad s.CASCADE_FILE_EYES = true
        · by_cases h3 : w.cameraOpens = true
          · exact ⟨s, trace, rfl, h1, h2, h3⟩
          · simp [h1, h2, h3] at hmain
        · simp [h1, h2] at hmain
      · simp [h1] at hmain

/-- C9, witness: with the well-formed settings file and a primary model that
does not load, `main` returns -1 without invoking `detectAndDraw`, whatever
the fuel. -/
theorem startup_failure_returns_minus_one_witness :
    ∃ t, main (exampleWorld (fun _ => false) true 1) 5 = some (t, .returned (-1)) ∧
      t.any MainEvent.isDetect = false :=
  (startup_failure_returns_minus_one (exampleWorld (fun _ => false) true 1) 5).1
    ⟨"face.xml".toList, "eyes.xml".toList, "faces".toList⟩ [] (by decide) (Or.inl rfl)

/-- With both models loading and the camera open, `main` processes the one
frame of the example world and returns 0 when the stream ends. -/
theorem main_returns_zero_example :
    main (exampleWorld (fun _ => true) true 1) 5 =
      some ([.detectAndDraw [], .imshow, .release, .destroyAllWindows], .returned 0) := by
  decide

/-! ## Theorems about the normalised correlation -/

theorem dot_self_nonneg (l : List ℚ) : 0 ≤ dot l l := by
  induction l with
  | nil => simp [dot]
  | cons a l ih =>
    have h : dot (a :: l) (a :: l) = a * a + dot l l := by simp [dot]
    rw [h]
    have := mul_self_nonneg a
    linarith

theorem eq_zero_of_dot_self_eq_zero {l : List ℚ} (h : dot l l = 0) : ∀ x ∈ l, x = 0 := by
  induction l with
  | nil => intro x hx; cases hx
  | cons a l ih =>
    have h2 : dot (a :: l) (a :: l) = a * a + dot l l := by simp [dot]
    rw [h2] at h
    have h3 := mul_self_nonneg a
    have h4 := dot_self_nonneg l
    have h5 : a * a = 0 := by linarith
    have h6 : dot l l = 0 := by linarith
    intro x hx
    rcases List.mem_cons.mp hx with rfl | hx
    · exact mul_self_eq_zero.mp h5
    · exact ih h6 x hx

/-- The variance term of an image is not negative, so it is positive once it is not zero. -/
theorem dot_centered_pos {xs : List Int} (h : dot (centered xs) (centered xs) ≠ 0) :
    0 < dot (centered xs) (centered xs) :=
  lt_of_le_of_ne (dot_self_nonneg (centered xs)) (Ne.symm h)

/-- An image with two different samples has a variance term that is not zero. -/
theorem dot_centered_ne_zero {xs : List Int} (hvar : ∃ a ∈ xs, ∃ b ∈ xs, a ≠ b) :
    dot (centered xs) (centered xs) ≠ 0 := by
  intro h
  obtain ⟨a, ha, b, hb, hab⟩ := hvar
  have hz := eq_zero_of_dot_self_eq_zero h
  unfold centered at hz
  have hza : (a : ℚ) - mean xs = 0 :=
    hz _ (List.mem_map_of_mem (fun x : Int => (x : ℚ) - mean xs) ha)
  have hzb : (b : ℚ) - mean xs = 0 :=
    hz _ (List.mem_map_of_mem (fun x : Int => (x : ℚ) - mean xs) hb)
  have : (a : ℚ) = (b : ℚ) := by linarith
  exact hab (by exact_mod_cast this)

/-- The normalised correlation of an image with itself is 1. -/
theorem tmCcoeffNormed_self {xs : List Int} {s : ℚ} (h : IsTmCcoeffNormed xs xs s) : s = 1 := by
  unfold IsTmCcoeffNormed ccoeffDenSq ccoeffNum at h
  by_cases hz : dot (centered xs) (centered xs) = 0
  · simpa only [hz, if_true] using h
  · have hpos := dot_centered_pos hz
    have hne : dot (centered xs) (centered xs) * dot (centered xs) (centered xs) ≠ 0 :=
      mul_ne_zero hz hz
    simp only [hz, if_false] at h
    obtain ⟨hsq, hsign⟩ := h
    have hs0 : 0 ≤ s := hsign.mpr (le_of_lt hpos)
    have hss : s * s = 1 :=
      mul_right_cancel₀ hne (by rw [one_mul]; exact hsq : s * s * _ = 1 * _)
    have : (s - 1) * (s + 1) = 0 := by ring_nf; linarith
    rcases mul_eq_zero.mp this with h1 | h1
    · linarith
    · linarith

/-- For an image with two different samples the value 1 is the one the
formula gives: squared and multiplied with the squared denominator it is the
squared numerator, and the numerator is positive. -/
theorem tmCcoeffNormed_self_of_variance {xs : List Int} (hvar : ∃ a ∈ xs, ∃ b ∈ xs, a ≠ b) :
    IsTmCcoeffNormed xs xs 1 ∧ 0 < ccoeffNum xs xs ∧
      (1 : ℚ) * 1 * ccoeffDenSq xs xs = ccoeffNum xs xs * ccoeffNum xs xs := by
  have hz := dot_centered_ne_zero hvar
  have hpos := dot_centered_pos hz
  refine ⟨?_, hpos, by simp [ccoeffDenSq, ccoeffNum]⟩
  unfold IsTmCcoeffNormed ccoeffDenSq ccoeffNum
  simp only [hz, if_false]
  exact ⟨by ring, by constructor <;> intro _ <;> [exact le_of_lt hpos; norm_num]⟩

theorem mem_scores_of_entryOutcome {cv : OpenCV} {gray : Mat} {faceROI : Rect}
    {gallery : List Path} {entry : Path} {m : ℚ} (hmem : entry ∈ gallery)
    (ho : entryOutcome cv gray faceROI entry = .score m) :
    m ∈ scores cv gray faceROI gallery := by
  induction gallery with
  | nil => cases hmem
  | cons e rest ih =>
    rcases List.mem_cons.mp hmem with rfl | h
    · simp [scores, ho]
    · have := ih h
      simp only [scores]
      split
      · exact List.mem_cons_of_mem _ this
      · exact this

/-- C10: for every region (of non-empty size, so that the resize succeeds)
and every gallery reference that, converted to grey and resized to the
region, is sample for sample the content of the region, the normalised
correlation of the two is exactly 1, which is above the threshold, and the
region ends with the orange rectangle: it is classified as matched. -/
theorem identical_reference_scores_one (cv : OpenCV) (gray : Mat) (faceROI : Rect)
    (gallery : List Path) (entry : Path) (content : Mat) (s : ℚ)
    (hmem : entry ∈ gallery)
    (hext : hasValidImageExtension entry = true)
    (hdec : (cv.imread entry).empty = false)
    (hsize : faceROI.sizeEmpty = false)
    (hroi : cv.roi gray faceROI = .ok content)
    (hsame : cv.resize (cv.cvtColor (cv.imread entry)) faceROI.width faceROI.height = content)
    (hscore : cv.matchTemplate content content = .ok s)
    (hexact : IsTmCcoeffNormed content.data content.data s) :
    s = 1 ∧ threshold < s ∧
      entryOutcome cv gray faceROI entry = .score 1 ∧
      isMatch (bestScore (scores cv gray faceROI gallery)) = true ∧
      lastRectangle (processFace cv gray (some gallery) faceROI).1 = some orange := by
  have hs : s = 1 := tmCcoeffNormed_self hexact
  subst hs
  have hthr : threshold < (1 : ℚ) := by norm_num [threshold]
  have ho : entryOutcome cv gray faceROI entry = .score 1 := by
    simp [entryOutcome, hext, hdec, hsize, hsame, hroi, hscore, Except.bind]
  have hm : isMatch (bestScore (scores cv gray faceROI gallery)) = true :=
    (isMatch_bestScore_iff _).mpr ⟨1, mem_scores_of_entryOutcome hmem ho, hthr⟩
  refine ⟨rfl, hthr, ho, hm, ?_⟩
  simp [processFace, lastRectangle, lastRectangle_compareGallery, hm]

/-- C10, witness: the reference and the region both hold the image with the
two samples 0 and 2, whose coefficient the formula gives as 1. -/
theorem identical_reference_scores_one_witness :
    (1 : ℚ) = 1 ∧ threshold < (1 : ℚ) ∧
      entryOutcome (uniformCv ⟨1, 2, [0, 2]⟩ 1) ⟨1, 2, [0, 2]⟩ ⟨0, 0, 2, 1⟩ (file "alice.jpg")
        = .score 1 ∧
      isMatch (bestScore (scores (uniformCv ⟨1, 2, [0, 2]⟩ 1) ⟨1, 2, [0, 2]⟩ ⟨0, 0, 2, 1⟩
        [file "alice.jpg"])) = true ∧
      lastRectangle (processFace (uniformCv ⟨1, 2, [0, 2]⟩ 1) ⟨1, 2, [0, 2]⟩
        (some [file "alice.jpg"]) ⟨0, 0, 2, 1⟩).1 = some orange :=
  identical_reference_scores_one (uniformCv ⟨1, 2, [0, 2]⟩ 1) ⟨1, 2, [0, 2]⟩ ⟨0, 0, 2, 1⟩
    [file "alice.jpg"] (file "alice.jpg") ⟨1, 2, [0, 2]⟩ 1
    (by decide) (by decide) (by decide) (by decide) rfl rfl rfl
    (by norm_num [IsTmCcoeffNormed, ccoeffDenSq, ccoeffNum, dot, centered, mean])

end FaceRecognition
